import Mathlib

/-!
Verification of the BP compiler pipeline (src/main.rs): lexer `tokenize`,
parser `parse`, and the C-code construction in `transpile_and_write_c`.

Modelling conventions.
* Rust panics (including `.unwrap()` failures) are modelled by `Option`: a result of
  `none` means the Rust code panics on that input.
* The lexer branches on `ch.is_alphabetic()` (full Unicode). The embedding is
  parametric in that predicate (`isAlpha`); the literal ASCII range patterns
  `'a'..='z' | 'A'..='Z'` and `'0'..='9'` of the `match` arms are embedded
  exactly, via code-point comparisons.
* The diagnostics that the parser prints with `println!` are modelled as values of type `Diag`
  carrying the same data (names, keywords, token indices) that the Rust
  format strings interpolate.
-/

/-- Token type, from `enum Token` in src/main.rs. -/
inductive Token where
  | keyword (s : String)
  | identifier (s : String)
  | number (n : Int)
  | stringLiteral (s : String)
  | equals
  | semicolon
  | endOfFile
deriving DecidableEq

/-- AST type, from `enum ASTNode` in src/main.rs (`Show` is `showStmt`). -/
inductive ASTNode where
  | variableDeclaration (name : String) (value : ASTNode)
  | stringLiteral (s : String)
  | numberLiteral (n : Int)
  | showStmt (s : String)
deriving DecidableEq

/-- Diagnostics printed by `parse` via `println!`, one constructor per
format string, carrying the interpolated data. `Eot` marks the
"reached end of tokens" messages, which carry no index. -/
inductive Diag where
  | unexpectedValueAfterEq (i : Nat)
  | expectedValueEot
  | expectedEqAfterIdent (name : String) (i : Nat)
  | expectedEqEot
  | expectedIdentAfterKeyword (k : String) (i : Nat)
  | expectedIdentEot
  | expectedStringAfterShow (i : Nat)
  | expectedStringEot
  | unknownKeyword (k : String) (i : Nat)
  | unexpectedToken (t : Token) (i : Nat)
deriving DecidableEq

/-- The Rust pattern `'0'..='9'` (also `ch.is_digit(10)`), as a code-point
range test. -/
def isDigitCh (c : Char) : Bool := 48 ≤ c.toNat && c.toNat ≤ 57

/-- The Rust pattern `'a'..='z' | 'A'..='Z'`, as a code-point range test. -/
def isAsciiLetterCh (c : Char) : Bool :=
  (97 ≤ c.toNat && c.toNat ≤ 122) || (65 ≤ c.toNat && c.toNat ≤ 90)

/-- Numeric value of a digit run, as computed by `num.parse::<i32>()` on a
string of ASCII digits (no sign): the usual base-10 fold. -/
def digitsVal (l : List Char) : Nat := l.foldl (fun a c => a * 10 + (c.toNat - 48)) 0

/-- Largest value accepted by `parse::<i32>()` on an unsigned digit string. -/
def i32Max : Nat := 2147483647

/-- The `match ident.as_str()` at the end of the word branch of `tokenize`:
exactly `"m"`, `"c"`, `"show"` become `Keyword`, everything else
`Identifier`. -/
def mkWord (w : String) : Token :=
  if w = "m" ∨ w = "c" ∨ w = "show" then Token.keyword w else Token.identifier w

/-- The `while let Some(&ch) = chars.peek()` scan loop of `tokenize`
(src/main.rs lines 22-77), parametric in the Rust predicate `char::is_alphabetic`
(`isAlpha`). Each branch consumes exactly the characters the Rust loop
consumes; `none` models a panic (`Unexpected character`, or the
`.unwrap()` on an out-of-range digit run). In the word branch the Rust
inner loop re-tests the already matched first ASCII letter with
`is_alphabetic`, which is true for ASCII letters, so the word is the
first character followed by the `isAlpha`-run of the remainder. -/
def scanTokens (isAlpha : Char → Bool) : List Char → Option (List Token)
  | [] => some []
  | c :: rest =>
    if c = '=' then (scanTokens isAlpha rest).map (fun ts => Token.equals :: ts)
    else if c = ';' then (scanTokens isAlpha rest).map (fun ts => Token.semicolon :: ts)
    else if c = '"' then
      (scanTokens isAlpha ((rest.dropWhile (fun ch => ch ≠ '"')).drop 1)).map
        (fun ts => Token.stringLiteral (String.mk (rest.takeWhile (fun ch => ch ≠ '"'))) :: ts)
    else if isDigitCh c then
      let w := c :: rest.takeWhile isDigitCh
      if digitsVal w ≤ i32Max then
        (scanTokens isAlpha (rest.dropWhile isDigitCh)).map
          (fun ts => Token.number (Int.ofNat (digitsVal w)) :: ts)
      else none
    else if isAsciiLetterCh c then
      (scanTokens isAlpha (rest.dropWhile isAlpha)).map
        (fun ts => mkWord (String.mk (c :: rest.takeWhile isAlpha)) :: ts)
    else if c = ' ' ∨ c = '\n' ∨ c = '\t' then scanTokens isAlpha rest
    else none
termination_by l => l.length
decreasing_by
  all_goals simp only [List.length_cons]
  · omega
  · omega
  · have h1 := (List.dropWhile_suffix (l := rest) (fun ch => decide (ch ≠ '"'))).length_le
    have h2 := List.length_drop 1 (rest.dropWhile (fun ch => ch ≠ '"'))
    omega
  · have h1 := (List.dropWhile_suffix (l := rest) isDigitCh).length_le
    omega
  · have h1 := (List.dropWhile_suffix (l := rest) isAlpha).length_le
    omega
  · omega

/-- The function `tokenize` of src/main.rs: run the scan loop, then
`tokens.push(Token::EndOfFile)`. -/
def tokenize (isAlpha : Char → Bool) (input : List Char) : Option (List Token) :=
  (scanTokens isAlpha input).map (fun ts => ts ++ [Token.endOfFile])

/-- Prepend a parsed statement node to a parser result (`ast.push(...)`,
with the result list built back-to-front on return). -/
def addNode (n : ASTNode) (p : List ASTNode × List Diag) : List ASTNode × List Diag :=
  (n :: p.1, p.2)

/-- Prepend a diagnostic to a parser result (a `println!` in `parse`). -/
def addDiag (d : Diag) (p : List ASTNode × List Diag) : List ASTNode × List Diag :=
  (p.1, d :: p.2)

/-- The `while idx < tokens.len()` loop of `parse` (src/main.rs lines
97-197), with the index-based token accesses embedded as `ts[i]?`: the
`none` arms model what an out-of-range `tokens[i]` access would be (a
panic), so that totality of this function is exactly the statement that
every access is in bounds. The guard structure (`idx + k < tokens.len()`
before each lookahead) mirrors the source. -/
def parseGo (ts : List Token) (idx : Nat) : Option (List ASTNode × List Diag) :=
  if h : idx < ts.length then
    match ts[idx]? with
    | none => none
    | some (Token.keyword k) =>
      if k = "m" ∨ k = "c" then
        if h1 : idx + 1 < ts.length then
          match ts[idx + 1]? with
          | none => none
          | some (Token.identifier name) =>
            if h2 : idx + 2 < ts.length then
              match ts[idx + 2]? with
              | none => none
              | some Token.equals =>
                if h3 : idx + 3 < ts.length then
                  match ts[idx + 3]? with
                  | none => none
                  | some (Token.number n) =>
                    (parseGo ts (idx + 4)).map
                      (addNode (ASTNode.variableDeclaration name (ASTNode.numberLiteral n)))
                  | some (Token.stringLiteral s) =>
                    (parseGo ts (idx + 4)).map
                      (addNode (ASTNode.variableDeclaration name (ASTNode.stringLiteral s)))
                  | some _ =>
                    (parseGo ts (idx + 1)).map (addDiag (Diag.unexpectedValueAfterEq (idx + 3)))
                else (parseGo ts (idx + 1)).map (addDiag Diag.expectedValueEot)
              | some _ =>
                (parseGo ts (idx + 1)).map (addDiag (Diag.expectedEqAfterIdent name (idx + 1)))
            else (parseGo ts (idx + 1)).map (addDiag Diag.expectedEqEot)
          | some _ =>
            (parseGo ts (idx + 1)).map (addDiag (Diag.expectedIdentAfterKeyword k (idx + 1)))
        else (parseGo ts (idx + 1)).map (addDiag Diag.expectedIdentEot)
      else if k = "show" then
        if h1 : idx + 1 < ts.length then
          match ts[idx + 1]? with
          | none => none
          | some (Token.stringLiteral s) =>
            (parseGo ts (idx + 2)).map (addNode (ASTNode.showStmt s))
          | some _ =>
            (parseGo ts (idx + 1)).map (addDiag (Diag.expectedStringAfterShow (idx + 1)))
        else (parseGo ts (idx + 1)).map (addDiag Diag.expectedStringEot)
      else (parseGo ts (idx + 1)).map (addDiag (Diag.unknownKeyword k idx))
    | some Token.semicolon => parseGo ts (idx + 1)
    | some Token.endOfFile => some ([], [])
    | some t => (parseGo ts (idx + 1)).map (addDiag (Diag.unexpectedToken t idx))
  else some ([], [])
termination_by ts.length - idx
decreasing_by all_goals omega

/-- The function `parse` of src/main.rs: run the loop from index 0.
A `none` result would mean an out-of-range token access. -/
def parse (ts : List Token) : Option (List ASTNode × List Diag) := parseGo ts 0

/-- The same parser loop in structural form: the list argument is the
suffix of the token slice from the current index, and the `Nat` argument
is that index (used only inside diagnostics, exactly where the Rust
format strings interpolate `idx`). Matching k tokens deep corresponds to
the bounds-checked lookaheads `tokens[idx + 1] .. tokens[idx + 3]`;
advancing by one token (`idx += 1`) is recursion on the tail.
`parseGo_eq_parseL` below proves this equal to the indexed version. -/
def parseL : Nat → List Token → List ASTNode × List Diag
  | _, [] => ([], [])
  | i, Token.keyword k :: Token.identifier name :: Token.equals :: Token.number n :: rest4 =>
    if k = "m" ∨ k = "c" then
      addNode (ASTNode.variableDeclaration name (ASTNode.numberLiteral n)) (parseL (i + 4) rest4)
    else if k = "show" then
      addDiag (Diag.expectedStringAfterShow (i + 1))
        (parseL (i + 1) (Token.identifier name :: Token.equals :: Token.number n :: rest4))
    else
      addDiag (Diag.unknownKeyword k i)
        (parseL (i + 1) (Token.identifier name :: Token.equals :: Token.number n :: rest4))
  | i, Token.keyword k :: Token.identifier name :: Token.equals :: Token.stringLiteral s :: rest4 =>
    if k = "m" ∨ k = "c" then
      addNode (ASTNode.variableDeclaration name (ASTNode.stringLiteral s)) (parseL (i + 4) rest4)
    else if k = "show" then
      addDiag (Diag.expectedStringAfterShow (i + 1))
        (parseL (i + 1) (Token.identifier name :: Token.equals :: Token.stringLiteral s :: rest4))
    else
      addDiag (Diag.unknownKeyword k i)
        (parseL (i + 1) (Token.identifier name :: Token.equals :: Token.stringLiteral s :: rest4))
  | i, Token.keyword k :: Token.identifier name :: Token.equals :: t :: rest4 =>
    if k = "m" ∨ k = "c" then
      addDiag (Diag.unexpectedValueAfterEq (i + 3))
        (parseL (i + 1) (Token.identifier name :: Token.equals :: t :: rest4))
    else if k = "show" then
      addDiag (Diag.expectedStringAfterShow (i + 1))
        (parseL (i + 1) (Token.identifier name :: Token.equals :: t :: rest4))
    else
      addDiag (Diag.unknownKeyword k i)
        (parseL (i + 1) (Token.identifier name :: Token.equals :: t :: rest4))
  | i, [Token.keyword k, Token.identifier name, Token.equals] =>
    if k = "m" ∨ k = "c" then
      addDiag Diag.expectedValueEot (parseL (i + 1) [Token.identifier name, Token.equals])
    else if k = "show" then
      addDiag (Diag.expectedStringAfterShow (i + 1))
        (parseL (i + 1) [Token.identifier name, Token.equals])
    else
      addDiag (Diag.unknownKeyword k i) (parseL (i + 1) [Token.identifier name, Token.equals])
  | i, Token.keyword k :: Token.identifier name :: t :: rest2 =>
    if k = "m" ∨ k = "c" then
      addDiag (Diag.expectedEqAfterIdent name (i + 1))
        (parseL (i + 1) (Token.identifier name :: t :: rest2))
    else if k = "show" then
      addDiag (Diag.expectedStringAfterShow (i + 1))
        (parseL (i + 1) (Token.identifier name :: t :: rest2))
    else
      addDiag (Diag.unknownKeyword k i) (parseL (i + 1) (Token.identifier name :: t :: rest2))
  | i, [Token.keyword k, Token.identifier name] =>
    if k = "m" ∨ k = "c" then
      addDiag Diag.expectedEqEot (parseL (i + 1) [Token.identifier name])
    else if k = "show" then
      addDiag (Diag.expectedStringAfterShow (i + 1)) (parseL (i + 1) [Token.identifier name])
    else
      addDiag (Diag.unknownKeyword k i) (parseL (i + 1) [Token.identifier name])
  | i, Token.keyword k :: Token.stringLiteral s :: rest2 =>
    if k = "m" ∨ k = "c" then
      addDiag (Diag.expectedIdentAfterKeyword k (i + 1))
        (parseL (i + 1) (Token.stringLiteral s :: rest2))
    else if k = "show" then
      addNode (ASTNode.showStmt s) (parseL (i + 2) rest2)
    else
      addDiag (Diag.unknownKeyword k i) (parseL (i + 1) (Token.stringLiteral s :: rest2))
  | i, Token.keyword k :: t :: rest2 =>
    if k = "m" ∨ k = "c" then
      addDiag (Diag.expectedIdentAfterKeyword k (i + 1)) (parseL (i + 1) (t :: rest2))
    else if k = "show" then
      addDiag (Diag.expectedStringAfterShow (i + 1)) (parseL (i + 1) (t :: rest2))
    else
      addDiag (Diag.unknownKeyword k i) (parseL (i + 1) (t :: rest2))
  | i, [Token.keyword k] =>
    if k = "m" ∨ k = "c" then
      addDiag Diag.expectedIdentEot (parseL (i + 1) [])
    else if k = "show" then
      addDiag Diag.expectedStringEot (parseL (i + 1) [])
    else
      addDiag (Diag.unknownKeyword k i) (parseL (i + 1) [])
  | i, Token.semicolon :: rest => parseL (i + 1) rest
  | _, Token.endOfFile :: _ => ([], [])
  | i, t :: rest => addDiag (Diag.unexpectedToken t i) (parseL (i + 1) rest)
termination_by _ l => l.length
decreasing_by all_goals (simp only [List.length_cons]; omega)

/-- Fixed C entry-point preamble, from `transpile_and_write_c`. -/
def cPreamble : String := "#include <stdio.h>\n\nint main() \x7b\n"

/-- Fixed C entry-point postamble, from `transpile_and_write_c`. -/
def cPostamble : String := "    return 0;\n\x7d"

/-- The per-node `match` of `transpile_and_write_c` (src/main.rs lines
207-221): the text appended to `c_code` for one AST node; unhandled
shapes append nothing. -/
def cLine : ASTNode → String
  | ASTNode.variableDeclaration name (ASTNode.numberLiteral n) =>
    "    int " ++ name ++ " = " ++ toString n ++ ";\n"
  | ASTNode.variableDeclaration name (ASTNode.stringLiteral s) =>
    "    char " ++ name ++ "[] = \"" ++ s ++ "\";\n"
  | ASTNode.variableDeclaration _ _ => ""
  | ASTNode.showStmt s => "    printf(\"" ++ s ++ "\\n\");\n"
  | _ => ""

/-- The pure string built by `transpile_and_write_c` before it is written
to the output file: fold of `push_str` over the nodes, between the fixed
preamble and postamble. -/
def transpileC (ast : List ASTNode) : String :=
  (ast.foldl (fun acc node => acc ++ cLine node) cPreamble) ++ cPostamble

/-- The core pipeline of `main` (src/main.rs lines 241-249): tokenize,
parse, build the C text. `none` models a panic in `tokenize` or an
out-of-range access in `parse`. -/
def compile (isAlpha : Char → Bool) (input : List Char) : Option String :=
  match tokenize isAlpha input with
  | none => none
  | some ts =>
    match parse ts with
    | none => none
    | some r => some (transpileC r.1)

/-- A run of `n` semicolon tokens. -/
def sems (n : Nat) : List Token := List.replicate n Token.semicolon

/-- Statement chunks, each followed by a run of semicolons (the semicolon
counts are the second components). -/
def withSems : List (List Token × Nat) → List Token
  | [] => []
  | (c, n) :: ps => c ++ (sems n ++ withSems ps)

/-- A token chunk that forms exactly one well-formed statement of the
grammar, together with the AST node it parses to. -/
inductive StmtChunk : List Token → ASTNode → Prop where
  | declNum (k name : String) (n : Int) (hk : k = "m" ∨ k = "c") :
      StmtChunk [Token.keyword k, Token.identifier name, Token.equals, Token.number n]
        (ASTNode.variableDeclaration name (ASTNode.numberLiteral n))
  | declStr (k name s : String) (hk : k = "m" ∨ k = "c") :
      StmtChunk
        [Token.keyword k, Token.identifier name, Token.equals, Token.stringLiteral s]
        (ASTNode.variableDeclaration name (ASTNode.stringLiteral s))
  | showStr (s : String) :
      StmtChunk [Token.keyword "show", Token.stringLiteral s] (ASTNode.showStmt s)

/-- AST-shape test: the three node shapes for which `transpile_and_write_c`
emits a line. -/
def handledNode : ASTNode → Bool
  | ASTNode.variableDeclaration _ (ASTNode.numberLiteral _) => true
  | ASTNode.variableDeclaration _ (ASTNode.stringLiteral _) => true
  | ASTNode.showStmt _ => true
  | _ => false

/-- AST-shape test: the two literal shapes accepted as a declaration
value. -/
def isLitNode : ASTNode → Bool
  | ASTNode.numberLiteral _ => true
  | ASTNode.stringLiteral _ => true
  | _ => false

/-! Branch characterizations of `parseL`, one per behaviour of the source
loop body. -/

/-- Token-shape test: is this an `Identifier`. -/
def isIdentTok : Token → Bool
  | Token.identifier _ => true
  | _ => false

/-- Token-shape test: is this a `StringLiteral`. -/
def isStrTok : Token → Bool
  | Token.stringLiteral _ => true
  | _ => false

/-- Token-shape test: is this a `Number` or a `StringLiteral` (the two
literal shapes accepted after `=`). -/
def isLitTok : Token → Bool
  | Token.number _ => true
  | Token.stringLiteral _ => true
  | _ => false

/-- Token-shape test: a token that the parser loop treats through its
final catch-all arm (`Identifier`, `Number`, `StringLiteral`, `Equals`
at statement position). -/
def isStmtOtherTok : Token → Bool
  | Token.identifier _ => true
  | Token.number _ => true
  | Token.stringLiteral _ => true
  | Token.equals => true
  | _ => false

theorem parseL_decl_num (i : Nat) (k name : String) (n : Int) (rest : List Token)
    (hk : k = "m" ∨ k = "c") :
    parseL i (Token.keyword k :: Token.identifier name :: Token.equals ::
      Token.number n :: rest) =
    addNode (ASTNode.variableDeclaration name (ASTNode.numberLiteral n))
      (parseL (i + 4) rest) := by
  rcases hk with rfl | rfl <;> simp [parseL]

theorem parseL_decl_str (i : Nat) (k name s : String) (rest : List Token)
    (hk : k = "m" ∨ k = "c") :
    parseL i (Token.keyword k :: Token.identifier name :: Token.equals ::
      Token.stringLiteral s :: rest) =
    addNode (ASTNode.variableDeclaration name (ASTNode.stringLiteral s))
      (parseL (i + 4) rest) := by
  rcases hk with rfl | rfl <;> simp [parseL]

theorem parseL_show_str (i : Nat) (s : String) (rest : List Token) :
    parseL i (Token.keyword "show" :: Token.stringLiteral s :: rest) =
    addNode (ASTNode.showStmt s) (parseL (i + 2) rest) := by
  simp [parseL]

theorem parseL_bad_value (i : Nat) (k name : String) (t : Token) (rest : List Token)
    (hk : k = "m" ∨ k = "c") (ht : isLitTok t = false) :
    parseL i (Token.keyword k :: Token.identifier name :: Token.equals :: t :: rest) =
    addDiag (Diag.unexpectedValueAfterEq (i + 3))
      (parseL (i + 1) (Token.identifier name :: Token.equals :: t :: rest)) := by
  rcases hk with rfl | rfl <;> cases t <;> simp_all [parseL, isLitTok]

theorem parseL_bad_eq (i : Nat) (k name : String) (t : Token) (rest : List Token)
    (hk : k = "m" ∨ k = "c") (ht : t ≠ Token.equals) :
    parseL i (Token.keyword k :: Token.identifier name :: t :: rest) =
    addDiag (Diag.expectedEqAfterIdent name (i + 1))
      (parseL (i + 1) (Token.identifier name :: t :: rest)) := by
  rcases hk with rfl | rfl <;> cases t <;> simp_all [parseL]

theorem parseL_bad_ident (i : Nat) (k : String) (t : Token) (rest : List Token)
    (hk : k = "m" ∨ k = "c") (ht : isIdentTok t = false) :
    parseL i (Token.keyword k :: t :: rest) =
    addDiag (Diag.expectedIdentAfterKeyword k (i + 1)) (parseL (i + 1) (t :: rest)) := by
  rcases hk with rfl | rfl <;> cases t <;> simp_all [parseL, isIdentTok]

theorem parseL_show_bad (i : Nat) (t : Token) (rest : List Token)
    (ht : isStrTok t = false) :
    parseL i (Token.keyword "show" :: t :: rest) =
    addDiag (Diag.expectedStringAfterShow (i + 1)) (parseL (i + 1) (t :: rest)) := by
  cases t <;> try simp_all [parseL, isStrTok]
  case identifier s =>
    cases rest with
    | nil => simp [parseL]
    | cons t2 r2 =>
      cases t2 <;> try simp [parseL]
      cases r2 with
      | nil => simp [parseL]
      | cons t3 r3 => cases t3 <;> simp [parseL]

theorem parseL_unknown_keyword (i : Nat) (k : String) (rest : List Token)
    (h1 : k ≠ "m") (h2 : k ≠ "c") (h3 : k ≠ "show") :
    parseL i (Token.keyword k :: rest) =
    addDiag (Diag.unknownKeyword k i) (parseL (i + 1) rest) := by
  cases rest with
  | nil => simp [parseL, h1, h2, h3]
  | cons t1 r1 =>
    cases t1 <;> try simp [parseL, h1, h2, h3]
    cases r1 with
    | nil => simp [parseL, h1, h2, h3]
    | cons t2 r2 =>
      cases t2 <;> try simp [parseL, h1, h2, h3]
      cases r2 with
      | nil => simp [parseL, h1, h2, h3]
      | cons t3 r3 => cases t3 <;> simp [parseL, h1, h2, h3]

theorem parseL_eot_ident (i : Nat) (k : String) (hk : k = "m" ∨ k = "c") :
    parseL i [Token.keyword k] = addDiag Diag.expectedIdentEot (parseL (i + 1) []) := by
  rcases hk with rfl | rfl <;> simp [parseL]

theorem parseL_eot_eq (i : Nat) (k name : String) (hk : k = "m" ∨ k = "c") :
    parseL i [Token.keyword k, Token.identifier name] =
    addDiag Diag.expectedEqEot (parseL (i + 1) [Token.identifier name]) := by
  rcases hk with rfl | rfl <;> simp [parseL]

theorem parseL_eot_value (i : Nat) (k name : String) (hk : k = "m" ∨ k = "c") :
    parseL i [Token.keyword k, Token.identifier name, Token.equals] =
    addDiag Diag.expectedValueEot
      (parseL (i + 1) [Token.identifier name, Token.equals]) := by
  rcases hk with rfl | rfl <;> simp [parseL]

theorem parseL_eot_show (i : Nat) :
    parseL i [Token.keyword "show"] =
    addDiag Diag.expectedStringEot (parseL (i + 1) []) := by
  simp [parseL]

theorem parseL_semicolon (i : Nat) (rest : List Token) :
    parseL i (Token.semicolon :: rest) = parseL (i + 1) rest := by
  simp [parseL]

theorem parseL_eof (i : Nat) (rest : List Token) :
    parseL i (Token.endOfFile :: rest) = ([], []) := by
  simp [parseL]

theorem parseL_other (i : Nat) (t : Token) (rest : List Token)
    (ht : isStmtOtherTok t = true) :
    parseL i (t :: rest) = addDiag (Diag.unexpectedToken t i) (parseL (i + 1) rest) := by
  cases t <;> simp_all [parseL, isStmtOtherTok]

/-- Bridge between the two views of the parser loop, by induction on the
number of tokens left: at every index, the indexed loop `parseGo` returns
`some` of what the structural loop `parseL` computes on the remaining
suffix. In particular no token access of `parseGo` is out of range. -/
theorem parseGo_eq_parseL_aux (n : Nat) : ∀ (ts : List Token) (idx : Nat),
    ts.length - idx ≤ n → parseGo ts idx = some (parseL idx (ts.drop idx)) := by
  induction n with
  | zero =>
    intro ts idx hle
    rw [parseGo, dif_neg (by omega), List.drop_eq_nil_of_le (by omega), parseL]
  | succ n ih =>
    intro ts idx hle
    by_cases h : idx < ts.length
    case neg =>
      rw [parseGo, dif_neg h, List.drop_eq_nil_of_le (by omega), parseL]
    case pos =>
      have e0 := List.getElem?_eq_getElem h
      have hd0 : ts.drop idx = ts[idx] :: ts.drop (idx + 1) :=
        (List.getElem_cons_drop ts idx h).symm
      rw [parseGo, dif_pos h, e0, hd0]
      cases ht0 : ts[idx] with
      | keyword k =>
        simp only []
        by_cases hk : k = "m" ∨ k = "c"
        · rw [if_pos hk]
          by_cases h1 : idx + 1 < ts.length
          · have e1 := List.getElem?_eq_getElem h1
            have hd1 : ts.drop (idx + 1) = ts[idx + 1] :: ts.drop (idx + 2) :=
              (List.getElem_cons_drop ts (idx + 1) h1).symm
            rw [dif_pos h1, e1, hd1]
            cases ht1 : ts[idx + 1] with
            | identifier name =>
              simp only []
              by_cases h2 : idx + 2 < ts.length
              · have e2 := List.getElem?_eq_getElem h2
                have hd2 : ts.drop (idx + 2) = ts[idx + 2] :: ts.drop (idx + 3) :=
                  (List.getElem_cons_drop ts (idx + 2) h2).symm
                rw [dif_pos h2, e2, hd2]
                cases ht2 : ts[idx + 2] with
                | equals =>
                  simp only []
                  by_cases h3 : idx + 3 < ts.length
                  · have e3 := List.getElem?_eq_getElem h3
                    have hd3 : ts.drop (idx + 3) = ts[idx + 3] :: ts.drop (idx + 4) :=
                      (List.getElem_cons_drop ts (idx + 3) h3).symm
                    rw [dif_pos h3, e3, hd3]
                    cases ht3 : ts[idx + 3] with
                    | number num =>
                      simp only []
                      rw [ih ts (idx + 4) (by omega)]
                      simp only [Option.map_some']
                      rw [parseL_decl_num idx k name num _ hk]
                    | stringLiteral s =>
                      simp only []
                      rw [ih ts (idx + 4) (by omega)]
                      simp only [Option.map_some']
                      rw [parseL_decl_str idx k name s _ hk]
                    | keyword s2 =>
                      simp only []
                      rw [ih ts (idx + 1) (by omega)]
                      simp only [Option.map_some']
                      rw [parseL_bad_value idx k name _ _ hk (by rfl), hd1, ht1, hd2, ht2,
                        hd3, ht3]
                    | identifier s2 =>
                      simp only []
                      rw [ih ts (idx + 1) (by omega)]
                      simp only [Option.map_some']
                      rw [parseL_bad_value idx k name _ _ hk (by rfl), hd1, ht1, hd2, ht2,
                        hd3, ht3]
                    | equals =>
                      simp only []
                      rw [ih ts (idx + 1) (by omega)]
                      simp only [Option.map_some']
                      rw [parseL_bad_value idx k name _ _ hk (by rfl), hd1, ht1, hd2, ht2,
                        hd3, ht3]
                    | semicolon =>
                      simp only []
                      rw [ih ts (idx + 1) (by omega)]
                      simp only [Option.map_some']
                      rw [parseL_bad_value idx k name _ _ hk (by rfl), hd1, ht1, hd2, ht2,
                        hd3, ht3]
                    | endOfFile =>
                      simp only []
                      rw [ih ts (idx + 1) (by omega)]
                      simp only [Option.map_some']
                      rw [parseL_bad_value idx k name _ _ hk (by rfl), hd1, ht1, hd2, ht2,
                        hd3, ht3]
                  · have hnil : ts.drop (idx + 3) = [] :=
                      List.drop_eq_nil_of_le (by omega)
                    rw [dif_neg h3, hnil]
                    rw [ih ts (idx + 1) (by omega)]
                    simp only [Option.map_some']
                    rw [parseL_eot_value idx k name hk, hd1, ht1, hd2, ht2, hnil]
                | keyword s2 =>
                  simp only []
                  rw [ih ts (idx + 1) (by omega)]
                  simp only [Option.map_some']
                  rw [parseL_bad_eq idx k name _ _ hk (by simp), hd1, ht1, hd2, ht2]
                | identifier s2 =>
                  simp only []
                  rw [ih ts (idx + 1) (by omega)]
                  simp only [Option.map_some']
                  rw [parseL_bad_eq idx k name _ _ hk (by simp), hd1, ht1, hd2, ht2]
                | number n2 =>
                  simp only []
                  rw [ih ts (idx + 1) (by omega)]
                  simp only [Option.map_some']
                  rw [parseL_bad_eq idx k name _ _ hk (by simp), hd1, ht1, hd2, ht2]
                | stringLiteral s2 =>
                  simp only []
                  rw [ih ts (idx + 1) (by omega)]
                  simp only [Option.map_some']
                  rw [parseL_bad_eq idx k name _ _ hk (by simp), hd1, ht1, hd2, ht2]
                | semicolon =>
                  simp only []
                  rw [ih ts (idx + 1) (by omega)]
                  simp only [Option.map_some']
                  rw [parseL_bad_eq idx k name _ _ hk (by simp), hd1, ht1, hd2, ht2]
                | endOfFile =>
                  simp only []
                  rw [ih ts (idx + 1) (by omega)]
                  simp only [Option.map_some']
                  rw [parseL_bad_eq idx k name _ _ hk (by simp), hd1, ht1, hd2, ht2]
              · have hnil : ts.drop (idx + 2) = [] := List.drop_eq_nil_of_le (by omega)
                rw [dif_neg h2, hnil]
                rw [ih ts (idx + 1) (by omega)]
                simp only [Option.map_some']
                rw [parseL_eot_eq idx k name hk, hd1, ht1, hnil]
            | keyword s2 =>
              simp only []
              rw [ih ts (idx + 1) (by omega)]
              simp only [Option.map_some']
              rw [parseL_bad_ident idx k _ _ hk (by rfl), hd1, ht1]
            | number n2 =>
              simp only []
              rw [ih ts (idx + 1) (by omega)]
              simp only [Option.map_some']
              rw [parseL_bad_ident idx k _ _ hk (by rfl), hd1, ht1]
            | stringLiteral s2 =>
              simp only []
              rw [ih ts (idx + 1) (by omega)]
              simp only [Option.map_some']
              rw [parseL_bad_ident idx k _ _ hk (by rfl), hd1, ht1]
            | equals =>
              simp only []
              rw [ih ts (idx + 1) (by omega)]
              simp only [Option.map_some']
              rw [parseL_bad_ident idx k _ _ hk (by rfl), hd1, ht1]
            | semicolon =>
              simp only []
              rw [ih ts (idx + 1) (by omega)]
              simp only [Option.map_some']
              rw [parseL_bad_ident idx k _ _ hk (by rfl), hd1, ht1]
            | endOfFile =>
              simp only []
              rw [ih ts (idx + 1) (by omega)]
              simp only [Option.map_some']
              rw [parseL_bad_ident idx k _ _ hk (by rfl), hd1, ht1]
          · have hnil : ts.drop (idx + 1) = [] := List.drop_eq_nil_of_le (by omega)
            rw [dif_neg h1, hnil]
            rw [ih ts (idx + 1) (by omega)]
            simp only [Option.map_some']
            rw [parseL_eot_ident idx k hk, hnil]
        · rw [if_neg hk]
          by_cases hks : k = "show"
          · subst hks
            rw [if_pos rfl]
            by_cases h1 : idx + 1 < ts.length
            · have e1 := List.getElem?_eq_getElem h1
              have hd1 : ts.drop (idx + 1) = ts[idx + 1] :: ts.drop (idx + 2) :=
                (List.getElem_cons_drop ts (idx + 1) h1).symm
              rw [dif_pos h1, e1, hd1]
              cases ht1 : ts[idx + 1] with
              | stringLiteral s =>
                simp only []
                rw [ih ts (idx + 2) (by omega)]
                simp only [Option.map_some']
                rw [parseL_show_str]
              | keyword s2 =>
                simp only []
                rw [ih ts (idx + 1) (by omega)]
                simp only [Option.map_some']
                rw [parseL_show_bad idx _ _ (by rfl), hd1, ht1]
              | identifier s2 =>
                simp only []
                rw [ih ts (idx + 1) (by omega)]
                simp only [Option.map_some']
                rw [parseL_show_bad idx _ _ (by rfl), hd1, ht1]
              | number n2 =>
                simp only []
                rw [ih ts (idx + 1) (by omega)]
                simp only [Option.map_some']
                rw [parseL_show_bad idx _ _ (by rfl), hd1, ht1]
              | equals =>
                simp only []
                rw [ih ts (idx + 1) (by omega)]
                simp only [Option.map_some']
                rw [parseL_show_bad idx _ _ (by rfl), hd1, ht1]
              | semicolon =>
                simp only []
                rw [ih ts (idx + 1) (by omega)]
                simp only [Option.map_some']
                rw [parseL_show_bad idx _ _ (by rfl), hd1, ht1]
              | endOfFile =>
                simp only []
                rw [ih ts (idx + 1) (by omega)]
                simp only [Option.map_some']
                rw [parseL_show_bad idx _ _ (by rfl), hd1, ht1]
            · have hnil : ts.drop (idx + 1) = [] := List.drop_eq_nil_of_le (by omega)
              rw [dif_neg h1, hnil]
              rw [ih ts (idx + 1) (by omega)]
              simp only [Option.map_some']
              rw [parseL_eot_show, hnil]
          · rw [if_neg hks]
            rw [ih ts (idx + 1) (by omega)]
            simp only [Option.map_some']
            rw [parseL_unknown_keyword idx k _ (fun hh => hk (Or.inl hh))
              (fun hh => hk (Or.inr hh)) hks]
      | semicolon =>
        simp only []
        rw [ih ts (idx + 1) (by omega), parseL_semicolon]
      | endOfFile =>
        simp only []
        rw [parseL_eof]
      | identifier s =>
        simp only []
        rw [ih ts (idx + 1) (by omega)]
        simp only [Option.map_some']
        rw [parseL_other idx _ _ (by rfl)]
      | number nn =>
        simp only []
        rw [ih ts (idx + 1) (by omega)]
        simp only [Option.map_some']
        rw [parseL_other idx _ _ (by rfl)]
      | stringLiteral s =>
        simp only []
        rw [ih ts (idx + 1) (by omega)]
        simp only [Option.map_some']
        rw [parseL_other idx _ _ (by rfl)]
      | equals =>
        simp only []
        rw [ih ts (idx + 1) (by omega)]
        simp only [Option.map_some']
        rw [parseL_other idx _ _ (by rfl)]

/-- The indexed parser loop agrees with the structural one on every
suffix. -/
theorem parseGo_eq_parseL (ts : List Token) (idx : Nat) :
    parseGo ts idx = some (parseL idx (ts.drop idx)) :=
  parseGo_eq_parseL_aux ts.length ts idx (by omega)

/-- The whole parse agrees with the structural loop started at index 0. -/
theorem parse_eq_parseL (ts : List Token) : parse ts = some (parseL 0 ts) := by
  rw [parse, parseGo_eq_parseL, List.drop_zero]

/-- C1: the parser never reads past the end of the token sequence: on
every token slice, well-formed or not, `parse` returns a result (`none`
would mark an out-of-range `tokens[idx + k]` access, and every access in
`parseGo` sits behind its bounds check). -/
theorem parse_never_out_of_range (ts : List Token) : ∃ r, parse ts = some r :=
  ⟨parseL 0 ts, parse_eq_parseL ts⟩

/-- C5: each malformed statement shape raises one diagnostic carrying the
token index the source interpolates, advances by exactly one token and
keeps parsing; `EndOfFile` ends the loop with no diagnostic. -/
theorem parse_error_recovery (i : Nat) (k name : String) (t : Token)
    (rest : List Token) :
    ((k = "m" ∨ k = "c") → isIdentTok t = false →
      parseL i (Token.keyword k :: t :: rest) =
        addDiag (Diag.expectedIdentAfterKeyword k (i + 1)) (parseL (i + 1) (t :: rest))) ∧
    ((k = "m" ∨ k = "c") → t ≠ Token.equals →
      parseL i (Token.keyword k :: Token.identifier name :: t :: rest) =
        addDiag (Diag.expectedEqAfterIdent name (i + 1))
          (parseL (i + 1) (Token.identifier name :: t :: rest))) ∧
    ((k = "m" ∨ k = "c") → isLitTok t = false →
      parseL i (Token.keyword k :: Token.identifier name :: Token.equals :: t :: rest) =
        addDiag (Diag.unexpectedValueAfterEq (i + 3))
          (parseL (i + 1) (Token.identifier name :: Token.equals :: t :: rest))) ∧
    (isStrTok t = false →
      parseL i (Token.keyword "show" :: t :: rest) =
        addDiag (Diag.expectedStringAfterShow (i + 1)) (parseL (i + 1) (t :: rest))) ∧
    (k ≠ "m" → k ≠ "c" → k ≠ "show" →
      parseL i (Token.keyword k :: rest) =
        addDiag (Diag.unknownKeyword k i) (parseL (i + 1) rest)) ∧
    (isStmtOtherTok t = true →
      parseL i (t :: rest) = addDiag (Diag.unexpectedToken t i) (parseL (i + 1) rest)) ∧
    parseL i (Token.endOfFile :: rest) = ([], []) :=
  ⟨fun hk ht => parseL_bad_ident i k t rest hk ht,
   fun hk ht => parseL_bad_eq i k name t rest hk ht,
   fun hk ht => parseL_bad_value i k name t rest hk ht,
   fun ht => parseL_show_bad i t rest ht,
   fun h1 h2 h3 => parseL_unknown_keyword i k rest h1 h2 h3,
   fun ht => parseL_other i t rest ht,
   parseL_eof i rest⟩

/-- Concrete instances of the error-recovery theorem, one per malformed
shape. -/
theorem parse_error_recovery_witness :
    parseL 0 [Token.keyword "m", Token.equals] =
      addDiag (Diag.expectedIdentAfterKeyword "m" 1) (parseL 1 [Token.equals]) ∧
    parseL 0 [Token.keyword "m", Token.identifier "x", Token.semicolon] =
      addDiag (Diag.expectedEqAfterIdent "x" 1)
        (parseL 1 [Token.identifier "x", Token.semicolon]) ∧
    parseL 0 [Token.keyword "c", Token.identifier "x", Token.equals, Token.keyword "m"] =
      addDiag (Diag.unexpectedValueAfterEq 3)
        (parseL 1 [Token.identifier "x", Token.equals, Token.keyword "m"]) ∧
    parseL 0 [Token.keyword "show", Token.number 5] =
      addDiag (Diag.expectedStringAfterShow 1) (parseL 1 [Token.number 5]) ∧
    parseL 0 [Token.keyword "go"] =
      addDiag (Diag.unknownKeyword "go" 0) (parseL 1 []) ∧
    parseL 0 [Token.equals] =
      addDiag (Diag.unexpectedToken Token.equals 0) (parseL 1 []) ∧
    parseL 0 [Token.endOfFile] = ([], []) :=
  ⟨(parse_error_recovery 0 "m" "x" Token.equals []).1 (Or.inl rfl) rfl,
   (parse_error_recovery 0 "m" "x" Token.semicolon []).2.1 (Or.inl rfl) (by decide),
   (parse_error_recovery 0 "c" "x" (Token.keyword "m") []).2.2.1 (Or.inr rfl) rfl,
   (parse_error_recovery 0 "m" "x" (Token.number 5) []).2.2.2.1 rfl,
   (parse_error_recovery 0 "go" "x" Token.equals []).2.2.2.2.1 (by decide) (by decide)
     (by decide),
   (parse_error_recovery 0 "m" "x" Token.equals []).2.2.2.2.2.1 rfl,
   (parse_error_recovery 0 "m" "x" Token.equals []).2.2.2.2.2.2⟩

theorem parseL_sems (n i : Nat) (ts : List Token) :
    parseL i (sems n ++ ts) = parseL (i + n) ts := by
  induction n generalizing i with
  | zero => simp [sems]
  | succ m ihm =>
    have hs : sems (m + 1) = Token.semicolon :: sems m := by
      simp [sems, List.replicate_succ]
    rw [hs, List.cons_append, parseL_semicolon, ihm]
    congr 1
    omega

theorem parseL_withSems (ps : List (List Token × Nat)) (nodes : List ASTNode)
    (hps : List.Forall₂ (fun p nd => StmtChunk p.1 nd) ps nodes) :
    ∀ i, (parseL i (withSems ps)).1 = nodes := by
  induction hps with
  | nil => intro i; simp [withSems, parseL]
  | cons hpd hrest ihr =>
    intro i
    rename_i p nd ps' nodes'
    obtain ⟨c, m⟩ := p
    cases hpd with
    | declNum k name n hk =>
      simp only [withSems, List.cons_append, List.nil_append]
      rw [parseL_decl_num i k name n _ hk, parseL_sems]
      simp [addNode, ihr]
    | declStr k name s hk =>
      simp only [withSems, List.cons_append, List.nil_append]
      rw [parseL_decl_str i k name s _ hk, parseL_sems]
      simp [addNode, ihr]
    | showStr s =>
      simp only [withSems, List.cons_append, List.nil_append]
      rw [parseL_show_str, parseL_sems]
      simp [addNode, ihr]

/-- C8: semicolons at statement boundaries have no effect on the AST: for
any sequence of well-formed statement chunks, the parsed AST is the
nodes of the chunks in order, whatever number of semicolons stands before the
first chunk (`n₀`) or after each chunk (the counts in `ps`). -/
theorem parse_semicolons_no_effect (i n₀ : Nat) (ps : List (List Token × Nat))
    (nodes : List ASTNode)
    (hps : List.Forall₂ (fun p nd => StmtChunk p.1 nd) ps nodes) :
    (parseL i (sems n₀ ++ withSems ps)).1 = nodes ∧
    (∀ (slice : List Token) (m : Nat),
      (parseL i (sems m ++ slice)).1 = (parseL (i + m) slice).1) := by
  refine ⟨?_, fun slice m => by rw [parseL_sems]⟩
  rw [parseL_sems]
  exact parseL_withSems ps nodes hps (i + n₀)

/-- Concrete instance: two statements with two leading, three separating
and zero trailing semicolons parse to exactly their two nodes. -/
theorem parse_semicolons_no_effect_witness :
    (parseL 0 (sems 2 ++ withSems
      [([Token.keyword "m", Token.identifier "x", Token.equals, Token.number 5], 3),
       ([Token.keyword "show", Token.stringLiteral "hi"], 0)])).1 =
    [ASTNode.variableDeclaration "x" (ASTNode.numberLiteral 5),
     ASTNode.showStmt "hi"] :=
  (parse_semicolons_no_effect 0 2 _ _
    (List.Forall₂.cons (StmtChunk.declNum "m" "x" 5 (Or.inl rfl))
      (List.Forall₂.cons (StmtChunk.showStr "hi") List.Forall₂.nil))).1

theorem mkWord_ne_eof (w : String) : mkWord w ≠ Token.endOfFile := by
  unfold mkWord
  split <;> simp

/-- The scan loop never emits an `EndOfFile` token: only the final push in
`tokenize` does. -/
theorem scanTokens_no_eof_aux (n : Nat) :
    ∀ (isAlpha : Char → Bool) (input : List Char) (l : List Token),
      input.length ≤ n → scanTokens isAlpha input = some l →
      Token.endOfFile ∉ l := by
  induction n with
  | zero =>
    intro f input l hle hscan
    cases input with
    | nil =>
      simp only [scanTokens, Option.some.injEq] at hscan
      subst hscan
      simp
    | cons c rest => simp at hle
  | succ n ih =>
    intro f input l hle hscan
    cases input with
    | nil =>
      simp only [scanTokens, Option.some.injEq] at hscan
      subst hscan
      simp
    | cons c rest =>
      have hr : rest.length ≤ n := by
        simp only [List.length_cons] at hle
        omega
      rw [scanTokens] at hscan
      by_cases h1 : c = '='
      · rw [if_pos h1] at hscan
        obtain ⟨l', hl', rfl⟩ := Option.map_eq_some'.mp hscan
        intro hmem
        simp only [List.mem_cons] at hmem
        rcases hmem with h | h
        · exact Token.noConfusion h
        · exact ih f rest l' hr hl' h
      rw [if_neg h1] at hscan
      by_cases h2 : c = ';'
      · rw [if_pos h2] at hscan
        obtain ⟨l', hl', rfl⟩ := Option.map_eq_some'.mp hscan
        intro hmem
        simp only [List.mem_cons] at hmem
        rcases hmem with h | h
        · exact Token.noConfusion h
        · exact ih f rest l' hr hl' h
      rw [if_neg h2] at hscan
      by_cases h3 : c = '"'
      · rw [if_pos h3] at hscan
        obtain ⟨l', hl', rfl⟩ := Option.map_eq_some'.mp hscan
        have hlen : ((rest.dropWhile (fun ch => ch ≠ '"')).drop 1).length ≤ n := by
          have hm := (List.dropWhile_suffix (l := rest)
            (fun ch => decide (ch ≠ '"'))).length_le
          have hd := List.length_drop 1 (rest.dropWhile (fun ch => ch ≠ '"'))
          omega
        intro hmem
        simp only [List.mem_cons] at hmem
        rcases hmem with h | h
        · exact Token.noConfusion h
        · exact ih f _ l' hlen hl' h
      rw [if_neg h3] at hscan
      by_cases h4 : isDigitCh c = true
      · rw [if_pos h4] at hscan
        simp only [] at hscan
        by_cases h5 : digitsVal (c :: rest.takeWhile isDigitCh) ≤ i32Max
        · rw [if_pos h5] at hscan
          obtain ⟨l', hl', rfl⟩ := Option.map_eq_some'.mp hscan
          have hlen : (rest.dropWhile isDigitCh).length ≤ n := by
            have hm := (List.dropWhile_suffix (l := rest) isDigitCh).length_le
            omega
          intro hmem
          simp only [List.mem_cons] at hmem
          rcases hmem with h | h
          · exact Token.noConfusion h
          · exact ih f _ l' hlen hl' h
        · rw [if_neg h5] at hscan
          exact absurd hscan (by simp)
      rw [if_neg h4] at hscan
      by_cases h6 : isAsciiLetterCh c = true
      · rw [if_pos h6] at hscan
        obtain ⟨l', hl', rfl⟩ := Option.map_eq_some'.mp hscan
        have hlen : (rest.dropWhile f).length ≤ n := by
          have hm := (List.dropWhile_suffix (l := rest) f).length_le
          omega
        intro hmem
        simp only [List.mem_cons] at hmem
        rcases hmem with h | h
        · exact absurd h.symm (mkWord_ne_eof _)
        · exact ih f _ l' hlen hl' h
      rw [if_neg h6] at hscan
      by_cases h7 : c = ' ' ∨ c = '\n' ∨ c = '\t'
      · rw [if_pos h7] at hscan
        exact ih f rest l hr hscan
      · rw [if_neg h7] at hscan
        exact absurd hscan (by simp)

theorem scanTokens_no_eof (isAlpha : Char → Bool) (input : List Char)
    (l : List Token) (hscan : scanTokens isAlpha input = some l) :
    Token.endOfFile ∉ l :=
  scanTokens_no_eof_aux input.length isAlpha input l (by omega) hscan

/-- C2: whenever `tokenize` produces a token sequence, that sequence is
nonempty, its last token is `EndOfFile`, and `EndOfFile` occurs in it
exactly once. -/
theorem tokenize_eof_invariant (isAlpha : Char → Bool) (input : List Char)
    (ts : List Token) (h : tokenize isAlpha input = some ts) :
    ts ≠ [] ∧ ts.getLast? = some Token.endOfFile ∧
    ts.count Token.endOfFile = 1 := by
  obtain ⟨l, hl, rfl⟩ := Option.map_eq_some'.mp h
  refine ⟨by simp, List.getLast?_concat l, ?_⟩
  rw [List.count_append]
  rw [List.count_eq_zero.mpr (scanTokens_no_eof isAlpha input l hl)]
  rfl

/-- Concrete instance of the `EndOfFile` invariant on `m x = 5;`. -/
theorem tokenize_eof_invariant_witness :
    ([Token.keyword "m", Token.identifier "x", Token.equals, Token.number 5,
      Token.semicolon, Token.endOfFile] : List Token) ≠ [] ∧
    ([Token.keyword "m", Token.identifier "x", Token.equals, Token.number 5,
      Token.semicolon, Token.endOfFile] : List Token).getLast? =
      some Token.endOfFile ∧
    ([Token.keyword "m", Token.identifier "x", Token.equals, Token.number 5,
      Token.semicolon, Token.endOfFile] : List Token).count Token.endOfFile = 1 :=
  tokenize_eof_invariant isAsciiLetterCh "m x = 5;".toList _ (by
    simp [tokenize, scanTokens, isDigitCh, isAsciiLetterCh, mkWord, digitsVal,
      i32Max])

/-- C3 evaluation: on the first digit run that exceeds the 32-bit signed
range, `tokenize` panics (the `.unwrap()` on `parse::<i32>`), modelled as
`none`; one less and it produces the number token. -/
theorem tokenize_overflow_panics :
    tokenize isAsciiLetterCh "2147483648".toList = none ∧
    tokenize isAsciiLetterCh "2147483647".toList =
      some [Token.number 2147483647, Token.endOfFile] := by
  constructor <;>
    simp [tokenize, scanTokens, isDigitCh, isAsciiLetterCh, digitsVal, i32Max]

/-- Word branch of the scan loop: an ASCII letter starts a word consisting
of that letter and the following `isAlpha` run. -/
theorem scanTokens_word (isAlpha : Char → Bool) (c : Char) (rest : List Char)
    (hc : isAsciiLetterCh c = true) :
    scanTokens isAlpha (c :: rest) =
      (scanTokens isAlpha (rest.dropWhile isAlpha)).map
        (fun ts => mkWord (String.mk (c :: rest.takeWhile isAlpha)) :: ts) := by
  have h1 : c ≠ '=' := fun hh => absurd (hh ▸ hc) (by decide)
  have h2 : c ≠ ';' := fun hh => absurd (hh ▸ hc) (by decide)
  have h3 : c ≠ '"' := fun hh => absurd (hh ▸ hc) (by decide)
  have h4 : ¬(isDigitCh c = true) := by
    simp only [isAsciiLetterCh, Bool.or_eq_true, Bool.and_eq_true,
      decide_eq_true_eq] at hc
    simp only [isDigitCh, Bool.and_eq_true, decide_eq_true_eq, not_and]
    omega
  rw [scanTokens, if_neg h1, if_neg h2, if_neg h3, if_neg h4, if_pos hc]

/-- C4: a word starts at an ASCII letter and extends through the
following alphabetic run; it lexes as `Keyword` exactly for `"m"`,
`"c"`, `"show"` and as `Identifier` otherwise; digits never occur inside
the word, and a digit directly after the word is left for the next
token. -/
theorem tokenize_keyword_words (isAlpha : Char → Bool)
    (hdig : ∀ ch, isDigitCh ch = true → isAlpha ch = false)
    (c : Char) (rest : List Char) (hc : isAsciiLetterCh c = true) :
    scanTokens isAlpha (c :: rest) =
      (scanTokens isAlpha (rest.dropWhile isAlpha)).map
        (fun ts => mkWord (String.mk (c :: rest.takeWhile isAlpha)) :: ts) ∧
    (∀ w : String, mkWord w = Token.keyword w ↔ (w = "m" ∨ w = "c" ∨ w = "show")) ∧
    (∀ w : String, ¬(w = "m" ∨ w = "c" ∨ w = "show") → mkWord w = Token.identifier w) ∧
    (∀ d, d ∈ (c :: rest.takeWhile isAlpha) → isDigitCh d = false) ∧
    (∀ (d : Char) (suf : List Char), rest = rest.takeWhile isAlpha ++ d :: suf →
      rest.dropWhile isAlpha = d :: suf) := by
  refine ⟨scanTokens_word isAlpha c rest hc, ?_, ?_, ?_, ?_⟩
  · intro w
    by_cases hw : w = "m" ∨ w = "c" ∨ w = "show"
    · simp [mkWord, hw]
    · simp [mkWord, hw]
  · intro w hw
    simp [mkWord, hw]
  · intro d hd
    rcases List.mem_cons.mp hd with rfl | hd
    · refine Bool.eq_false_iff.mpr fun hdt => ?_
      simp only [isDigitCh, Bool.and_eq_true, decide_eq_true_eq] at hdt
      simp only [isAsciiLetterCh, Bool.or_eq_true, Bool.and_eq_true,
        decide_eq_true_eq] at hc
      omega
    · have ha := List.mem_takeWhile_imp hd
      refine Bool.eq_false_iff.mpr fun hdt => ?_
      rw [hdig d hdt] at ha
      exact Bool.noConfusion ha
  · intro d suf hsplit
    exact List.append_cancel_left
      (by rw [List.takeWhile_append_dropWhile]; exact hsplit)

/-- Concrete instance of the word-lexing theorem on the input `ab3`. -/
theorem tokenize_keyword_words_witness :
    scanTokens isAsciiLetterCh ('a' :: "b3".toList) =
      (scanTokens isAsciiLetterCh ("b3".toList.dropWhile isAsciiLetterCh)).map
        (fun ts =>
          mkWord (String.mk ('a' :: "b3".toList.takeWhile isAsciiLetterCh)) :: ts) ∧
    (mkWord "show" = Token.keyword "show" ↔
      ("show" = "m" ∨ "show" = "c" ∨ "show" = "show")) ∧
    mkWord "ab" = Token.identifier "ab" ∧
    isDigitCh 'a' = false ∧
    "b3".toList.dropWhile isAsciiLetterCh = '3' :: [] :=
  have h := tokenize_keyword_words isAsciiLetterCh
    (fun ch hch => by
      refine Bool.eq_false_iff.mpr fun hat => ?_
      simp only [isDigitCh, Bool.and_eq_true, decide_eq_true_eq] at hch
      simp only [isAsciiLetterCh, Bool.or_eq_true, Bool.and_eq_true,
        decide_eq_true_eq] at hat
      omega)
    'a' "b3".toList (by decide)
  ⟨h.1, h.2.1 "show", h.2.2.1 "ab" (by decide),
    h.2.2.2.1 'a' (List.mem_cons_self 'a' _),
    h.2.2.2.2 '3' [] (by decide)⟩

/-- C10: a word must begin with an ASCII letter, but its continuation is
tested with the full alphabetic predicate, so a non-ASCII alphabetic
character extends a word that has already started; when a word would
begin at such a character, the scan falls through to the
unexpected-character branch (a panic, modelled as `none`). -/
theorem tokenize_unicode_word (isAlpha : Char → Bool) (c0 c : Char)
    (rest : List Char) :
    (isAsciiLetterCh c0 = true → 127 < c.toNat → isAlpha c = true →
      scanTokens isAlpha (c0 :: c :: rest) =
        (scanTokens isAlpha (rest.dropWhile isAlpha)).map
          (fun ts => mkWord (String.mk (c0 :: c :: rest.takeWhile isAlpha)) :: ts)) ∧
    (127 < c.toNat → isAlpha c = true → scanTokens isAlpha (c :: rest) = none) := by
  constructor
  · intro hc0 hbig halpha
    rw [scanTokens_word isAlpha c0 (c :: rest) hc0, List.dropWhile_cons,
      List.takeWhile_cons, if_pos halpha, if_pos halpha]
  · intro hbig halpha
    have h1 : c ≠ '=' := by rintro rfl; exact absurd hbig (by decide)
    have h2 : c ≠ ';' := by rintro rfl; exact absurd hbig (by decide)
    have h3 : c ≠ '"' := by rintro rfl; exact absurd hbig (by decide)
    have h4 : ¬(isDigitCh c = true) := by
      simp only [isDigitCh, Bool.and_eq_true, decide_eq_true_eq, not_and]
      omega
    have h5 : ¬(isAsciiLetterCh c = true) := by
      simp only [isAsciiLetterCh, Bool.or_eq_true, Bool.and_eq_true,
        decide_eq_true_eq]
      omega
    have h6 : ¬(c = ' ' ∨ c = '\n' ∨ c = '\t') := by
      rintro (rfl | rfl | rfl) <;> exact absurd hbig (by decide)
    rw [scanTokens, if_neg h1, if_neg h2, if_neg h3, if_neg h4, if_neg h5,
      if_neg h6]

/-- Concrete instance of the word-boundary theorem at the non-ASCII
alphabetic code point 233 (Latin small letter e with acute). -/
theorem tokenize_unicode_word_witness :
    scanTokens (fun ch => isAsciiLetterCh ch || ch.toNat == 233)
        ('a' :: Char.ofNat 233 :: []) =
      (scanTokens (fun ch => isAsciiLetterCh ch || ch.toNat == 233)
          (([] : List Char).dropWhile
            (fun ch => isAsciiLetterCh ch || ch.toNat == 233))).map
        (fun ts => mkWord (String.mk ('a' :: Char.ofNat 233 ::
          ([] : List Char).takeWhile
            (fun ch => isAsciiLetterCh ch || ch.toNat == 233))) :: ts) ∧
    scanTokens (fun ch => isAsciiLetterCh ch || ch.toNat == 233)
        (Char.ofNat 233 :: []) = none :=
  have h := tokenize_unicode_word
    (fun ch => isAsciiLetterCh ch || ch.toNat == 233) 'a' (Char.ofNat 233) []
  ⟨h.1 (by decide) (by decide) (by decide), h.2 (by decide) (by decide)⟩

theorem joinCons (s : String) (l : List String) :
    String.join (s :: l) = s ++ String.join l := by
  simp only [String.join_eq, List.map_cons, List.flatten_cons]
  rfl

theorem foldl_cLine (ast : List ASTNode) : ∀ init : String,
    ast.foldl (fun acc node => acc ++ cLine node) init =
      init ++ String.join (ast.map cLine) := by
  induction ast with
  | nil =>
    intro init
    show init = init ++ String.join []
    rw [show String.join [] = "" from rfl, String.append_empty]
  | cons a l ihl =>
    intro init
    simp only [List.foldl_cons, List.map_cons, joinCons]
    rw [ihl (init ++ cLine a), String.append_assoc]

theorem transpileC_eq_join (ast : List ASTNode) :
    transpileC ast = cPreamble ++ String.join (ast.map cLine) ++ cPostamble := by
  rw [transpileC, foldl_cLine]

theorem cLine_unhandled (node : ASTNode) (h : handledNode node = false) :
    cLine node = "" := by
  cases node with
  | variableDeclaration name v => cases v <;> simp_all [handledNode, cLine]
  | stringLiteral s => rfl
  | numberLiteral n => rfl
  | showStmt s => simp [handledNode] at h

theorem join_filter_cLine (ast : List ASTNode) :
    String.join ((ast.filter handledNode).map cLine) =
      String.join (ast.map cLine) := by
  induction ast with
  | nil => rfl
  | cons a l ihl =>
    by_cases ha : handledNode a = true
    · simp only [List.filter_cons, ha, if_true, List.map_cons, joinCons, ihl]
    · have ha' : handledNode a = false := Bool.not_eq_true _ ▸ ha
      simp only [List.filter_cons, ha', Bool.false_eq_true, if_false,
        List.map_cons, joinCons, ihl, cLine_unhandled a ha', String.empty_append]

/-- C6: code generation is the fixed preamble, then exactly the line of
each node in program order, then the fixed postamble; the three statement
shapes produce the described lines (with the literal text passed through
unescaped), and the line of each handled node is newline-terminated. -/
theorem transpileC_structure (ast : List ASTNode) (name s : String) (n : Int) :
    transpileC ast = cPreamble ++ String.join (ast.map cLine) ++ cPostamble ∧
    cLine (ASTNode.variableDeclaration name (ASTNode.numberLiteral n)) =
      "    int " ++ name ++ " = " ++ toString n ++ ";\n" ∧
    cLine (ASTNode.variableDeclaration name (ASTNode.stringLiteral s)) =
      "    char " ++ name ++ "[] = \"" ++ s ++ "\";\n" ∧
    cLine (ASTNode.showStmt s) = "    printf(\"" ++ s ++ "\\n\");\n" ∧
    (∀ node, handledNode node = true → ∃ body, cLine node = body ++ "\n") := by
  refine ⟨transpileC_eq_join ast, rfl, rfl, rfl, ?_⟩
  intro node hn
  cases node with
  | variableDeclaration nm v =>
    cases v with
    | numberLiteral k =>
      exact ⟨"    int " ++ nm ++ " = " ++ toString k ++ ";",
        by rw [String.append_assoc]; rfl⟩
    | stringLiteral str =>
      exact ⟨"    char " ++ nm ++ "[] = \"" ++ str ++ "\";",
        by rw [String.append_assoc]; rfl⟩
    | variableDeclaration a b => simp [handledNode] at hn
    | showStmt a => simp [handledNode] at hn
  | showStmt str =>
    exact ⟨"    printf(\"" ++ str ++ "\\n\");", by rw [String.append_assoc]; rfl⟩
  | numberLiteral k => simp [handledNode] at hn
  | stringLiteral str => simp [handledNode] at hn

/-- Concrete instance: the line of a `Show` node is newline-terminated. -/
theorem transpileC_structure_witness :
    ∃ body, cLine (ASTNode.showStmt "hi") = body ++ "\n" :=
  (transpileC_structure [] "x" "hi" 0).2.2.2.2 (ASTNode.showStmt "hi") rfl

/-- C9: generation is total over the whole `ASTNode` type: a top-level
`NumberLiteral` or `StringLiteral`, or a declaration whose value is not a
literal, contributes no text at all, and the output is the preamble, the
lines of the handled nodes, and the postamble. -/
theorem transpileC_unhandled (ast : List ASTNode) (name s : String) (n : Int)
    (v : ASTNode) (hv : isLitNode v = false) :
    cLine (ASTNode.numberLiteral n) = "" ∧
    cLine (ASTNode.stringLiteral s) = "" ∧
    cLine (ASTNode.variableDeclaration name v) = "" ∧
    transpileC ast =
      cPreamble ++ String.join ((ast.filter handledNode).map cLine) ++
        cPostamble := by
  refine ⟨rfl, rfl, ?_, ?_⟩
  · cases v <;> simp_all [isLitNode, cLine]
  · rw [transpileC_eq_join, join_filter_cLine]

/-- Concrete instance of totality over unhandled shapes. -/
theorem transpileC_unhandled_witness :
    cLine (ASTNode.numberLiteral 7) = "" ∧
    cLine (ASTNode.stringLiteral "x") = "" ∧
    cLine (ASTNode.variableDeclaration "v" (ASTNode.showStmt "s")) = "" ∧
    transpileC [ASTNode.numberLiteral 7] =
      cPreamble ++
        String.join (([ASTNode.numberLiteral 7].filter handledNode).map cLine) ++
        cPostamble :=
  transpileC_unhandled [ASTNode.numberLiteral 7] "v" "x" 7
    (ASTNode.showStmt "s") rfl

/-- C7: the tokenize-parse-generate pipeline is a pure function of its
input text: two runs on identical input give identical output. -/
theorem compile_deterministic (isAlpha : Char → Bool) (input : List Char)
    (o₁ o₂ : Option String) (h₁ : compile isAlpha input = o₁)
    (h₂ : compile isAlpha input = o₂) : o₁ = o₂ :=
  h₁ ▸ h₂

/-- Concrete instance: the pipeline output on `show "hi"`. -/
theorem compile_deterministic_witness :
    compile isAsciiLetterCh ("show \"hi\"".toList) =
      some ("#include <stdio.h>\n\nint main() \x7b\n    printf(\"hi\\n\");\n    return 0;\n\x7d") :=
  compile_deterministic isAsciiLetterCh ("show \"hi\"".toList) _ _ rfl (by
    have ht : tokenize isAsciiLetterCh ("show \"hi\"".toList) =
        some [Token.keyword "show", Token.stringLiteral "hi", Token.endOfFile] := by
      simp [tokenize, scanTokens, isDigitCh, isAsciiLetterCh, mkWord, digitsVal,
        i32Max]
    rw [compile, ht]
    simp only []
    rw [parse_eq_parseL]
    simp [parseL, addNode, transpileC, cLine, cPreamble, cPostamble])
